import Mathlib

/-!
# Verification of the ActiveDB `ExpandableDatabase` engine

Shallow embedding of `src/main.py` (class `ExpandableDatabase`).

Python dicts preserve insertion order and have unique keys; we model every
dict (`tables`, each table, each row, `pending_increments`) as an
insertion-ordered association list.  `dictGet`, `dictSet` and `dictUpdate`
below reproduce the Python primitives `d.get(k)`, `d[k] = v` and
`d.update(m)` exactly: assignment to a present key replaces its value *in
place* (the key keeps its position); assignment to an absent key appends at
the end; `update` performs the assignments of the argument left to right.

Field values in this program are strings (passwords) and integers
(`query_count`), modelled by `Value`.  A non-integer `query_count` value
would make Python's sort-key comparisons raise `TypeError`; such states are
outside the behaviours the spec describes, and `query_count` reads them as
the default `0` used by `.get("query_count", 0)`.

Wall-clock latencies (`time.time()` differences) are not statable; the
metrics list `request_times` is modelled by the number of samples recorded,
which is what the spec's claims quantify over.  The reorganization methods
start a background thread in Python; the embedding gives their end-to-end
effect on the store state (the sequential semantics of the thread body run
to completion), which is the state all claims about reorganization results
refer to.
-/

inductive Value where
  | str : String → Value
  | int : Int → Value
deriving DecidableEq, Repr

/-- A row: Python dict from field name to value, insertion-ordered. -/
abbrev Row := List (String × Value)

/-- A table: Python dict from row key to row, insertion-ordered. -/
abbrev Table := List (String × Row)

/-- The table map: Python dict from table name to table, insertion-ordered. -/
abbrev Tables := List (String × Table)

/-- Python `d.get(k)` / `k in d`: value at the first (= only) occurrence of `k`. -/
def dictGet (d : List (String × α)) (k : String) : Option α :=
  match d with
  | [] => none
  | (k', v) :: rest => if k' = k then some v else dictGet rest k

/-- Python `d[k] = v`: replace in place if `k` is present, else append at the end. -/
def dictSet (d : List (String × α)) (k : String) (v : α) : List (String × α) :=
  match d with
  | [] => [(k, v)]
  | (k', v') :: rest => if k' = k then (k, v) :: rest else (k', v') :: dictSet rest k v

/-- Python `d.update(m)`: perform `d[k] = v` for each pair of `m`, left to right. -/
def dictUpdate (d m : List (String × α)) : List (String × α) :=
  m.foldl (fun acc kv => dictSet acc kv.1 kv.2) d

/-- Python `row.get("query_count", 0)`, the sort key used by both
reorganization policies.  Absent field reads as `0`. -/
def query_count (r : Row) : Int :=
  match dictGet r "query_count" with
  | some (Value.int n) => n
  | _ => 0

/-- The descending comparison `sorted(..., key=query_count, reverse=True)`
sorts by: `a` may stay before `b` iff `query_count b ≤ query_count a`. -/
def qcGe (a b : String × Row) : Prop :=
  query_count b.2 ≤ query_count a.2

instance : DecidableRel qcGe := fun _ _ => Int.decLe _ _

instance : IsTotal (String × Row) qcGe :=
  ⟨fun a b => le_total (query_count b.2) (query_count a.2)⟩

instance : IsTrans (String × Row) qcGe :=
  ⟨fun _ _ _ hab hbc => le_trans hbc hab⟩

/-- State of an `ExpandableDatabase` instance: the table map, the
`defaultdict` of pending increments, and the number of request-latency
samples recorded so far (`len(self.request_times)`). -/
structure ExpandableDatabase where
  tables : Tables
  pending_increments : List (String × List (String × Int))
  request_times : Nat
deriving DecidableEq, Repr

/-- The operations return Python dicts `{"message": ...}` or `{"error": ...}`;
we model them as an explicit result value. -/
inductive DBResult (α : Type) where
  | ok : α → DBResult α
  | error : String → DBResult α
deriving DecidableEq, Repr

def DBResult.isError : DBResult α → Bool
  | .error _ => true
  | .ok _ => false

/-- A freshly constructed store with no snapshot file on disk:
`tables` empty, no pending increments, no samples. -/
def freshStore : ExpandableDatabase :=
  { tables := [], pending_increments := [], request_times := 0 }

/-- `add_table(table_name)` (src/main.py lines 43-48). -/
def add_table (s : ExpandableDatabase) (table_name : String) :
    DBResult String × ExpandableDatabase :=
  if (dictGet s.tables table_name).isSome then
    (.error "Table already exists.", s)
  else
    (.ok "Table added successfully.",
     { s with tables := dictSet s.tables table_name [] })

/-- `add_row(table_name, row_id, row_data)` (src/main.py lines 50-57). -/
def add_row (s : ExpandableDatabase) (table_name row_id : String) (row_data : Row) :
    DBResult String × ExpandableDatabase :=
  match dictGet s.tables table_name with
  | none => (.error "Table does not exist.", s)
  | some tbl =>
    if (dictGet tbl row_id).isSome then
      (.error "Row ID already exists.", s)
    else
      (.ok "Row added successfully.",
       { s with tables := dictSet s.tables table_name (dictSet tbl row_id row_data) })

/-- `get_row(table_name, row_id)` (src/main.py lines 59-64).
`self.tables.get(table_name, {}).get(row_id)` followed by
`return row if row else error`: Python truthiness makes an *empty* row dict
take the error branch just like an absent one. -/
def get_row (s : ExpandableDatabase) (table_name row_id : String) :
    DBResult Row × ExpandableDatabase :=
  match dictGet ((dictGet s.tables table_name).getD []) row_id with
  | some row => if row.isEmpty then (.error "Row not found.", s) else (.ok row, s)
  | none => (.error "Row not found.", s)

/-- `self.pending_increments[table_name][row_id] += 1` on the nested
`defaultdict(lambda: defaultdict(int))`: auto-create the inner dict (at the
end) if absent, then bump the counter (default `0`) for `row_id`. -/
def bumpPending (pend : List (String × List (String × Int))) (t k : String) :
    List (String × List (String × Int)) :=
  let inner := (dictGet pend t).getD []
  dictSet pend t (dictSet inner k (((dictGet inner k).getD 0) + 1))

/-- `track_increment(table_name, row_id)` (src/main.py lines 67-79).
The gate wait loop at the top is a no-op when no reorganization is in
flight (the sequential semantics).  Note the body does *not* touch the
row's `query_count`; it bumps `pending_increments` (which no code ever
applies back to `tables`), and appends one request-latency sample on both
the success and the error path. -/
def track_increment (s : ExpandableDatabase) (table_name row_id : String) :
    DBResult String × ExpandableDatabase :=
  match dictGet s.tables table_name with
  | some tbl =>
    if (dictGet tbl row_id).isSome then
      (.ok "Increment tracked.",
       { s with pending_increments := bumpPending s.pending_increments table_name row_id,
                request_times := s.request_times + 1 })
    else
      (.error "Row not found.", { s with request_times := s.request_times + 1 })
  | none => (.error "Row not found.", { s with request_times := s.request_times + 1 })

/-- `get_password(table_name, username)` (src/main.py lines 144-153).
`if user_row and "password" in user_row`: truthiness again — an empty row
dict falls through to the error branch. -/
def get_password (s : ExpandableDatabase) (table_name username : String) :
    DBResult (String × Value) × ExpandableDatabase :=
  match dictGet ((dictGet s.tables table_name).getD []) username with
  | some user_row =>
    if user_row.isEmpty then (.error "Password not found.", s)
    else
      match dictGet user_row "password" with
      | some pw => (.ok (username, pw), s)
      | none => (.error "Password not found.", s)
  | none => (.error "Password not found.", s)

/-- One table's full sort (src/main.py lines 108-113):
`dict(sorted(table_data.items(), key=lambda item: item[1].get("query_count", 0), reverse=True))`.
Python's `sorted` is a stable sort; with `reverse=True` it produces the
stable non-increasing order, which `List.insertionSort` with `qcGe`
computes. -/
def sortTableFull (tbl : Table) : Table :=
  List.insertionSort qcGe tbl

/-- `start_reorganization()` (src/main.py lines 95-126): shadow-copy every
table, fully sort each shadow table by `query_count` descending, swap the
shadow in.  End-to-end state effect: every table replaced by its stable
descending sort, table positions unchanged. -/
def start_reorganization (s : ExpandableDatabase) : ExpandableDatabase :=
  { s with tables := s.tables.map (fun nt => (nt.1, sortTableFull nt.2)) }

/-- A table's total `query_count` (src/main.py lines 173-179):
`sum(row.get("query_count", 0) for row in self.shadow_tables[table_name].values())`. -/
def table_total (tbl : Table) : Int :=
  (tbl.map (fun kv => query_count kv.2)).sum

/-- `table_priorities` (src/main.py lines 173-179): the table names sorted
by total `query_count` descending (Python `sorted(keys, key=..., reverse=True)`,
again the stable descending sort).  This is the order in which the
combined-reorganization loop processes the tables. -/
def table_priorities (ts : Tables) : List String :=
  List.insertionSort
    (fun a b => table_total ((dictGet ts b).getD []) ≤ table_total ((dictGet ts a).getD []))
    (ts.map Prod.fst)

/-- `keys[i:i+partition_size]` chunking, driven by
`range(0, len(keys), partition_size)`.  Fuel-based recursion; the fuel
`l.length` suffices for any `p > 0`.  (Python raises `ValueError` on step
`0`; `p = 0` yields no chunks here and is outside the claims, which assume
`p > 0`.) -/
def chunkListAux (p : Nat) : Nat → List α → List (List α)
  | 0, _ => []
  | _, [] => []
  | fuel + 1, l => l.take p :: chunkListAux p fuel (l.drop p)

def chunkList (p : Nat) (l : List α) : List (List α) :=
  if p = 0 then [] else chunkListAux p l.length l

/-- One partition's sort (src/main.py lines 188-192):
`dict(sorted(partition.items(), key=..., reverse=True))`. -/
def sortPartitionDesc (l : Table) : Table :=
  List.insertionSort qcGe l

/-- The per-table body of the combined reorganization loop
(src/main.py lines 183-193): take the key list in original order, and for
each contiguous chunk of `partition_size` keys build the partition dict
`{key: table_data[key] for key in partition_keys}`, sort it descending, and
`self.shadow_tables[table_name].update(sorted_partition)`.  The `update`
writes through `dictSet`, so keys already present keep their positions. -/
def reorganizePartitions (p : Nat) (tbl : Table) : Table :=
  let keys := tbl.map Prod.fst
  (chunkList p keys).foldl
    (fun t chunk =>
      let partition := chunk.filterMap (fun k => (dictGet t k).map (fun v => (k, v)))
      dictUpdate t (sortPartitionDesc partition))
    tbl

/-- `start_combined_reorganization(partition_size)` (src/main.py lines
158-207): shadow-copy the tables, compute `table_priorities`, run the
partitioned reorganization over the tables in that order (writing each
table back with `self.shadow_tables[table_name] = ...` semantics of the
in-place `update`), and swap the shadow in. -/
def start_combined_reorganization (s : ExpandableDatabase) (partition_size : Nat) :
    ExpandableDatabase :=
  let shadow := s.tables
  let shadow2 :=
    (table_priorities shadow).foldl
      (fun ts tn => dictSet ts tn (reorganizePartitions partition_size ((dictGet ts tn).getD [])))
      shadow
  { s with tables := shadow2 }

/-- JSON-shaped snapshot value: the on-disk format is
`{table_name: {row_key: {field: value, ...}, ...}, ...}` with string and
integer leaves (spec §6).  The byte-level encoding is out of scope; the
file contents are modelled as this tree, on which `json.dump` followed by
`json.load` is the identity. -/
inductive JsonValue where
  | str : String → JsonValue
  | int : Int → JsonValue
  | obj : List (String × JsonValue) → JsonValue
deriving Repr

/-- `Option`-valued map over a list, failing if any element fails
(the shape validation performed implicitly by `json.load` producing nested
dicts of the snapshot shape). -/
def optMapList (f : α → Option β) : List α → Option (List β)
  | [] => some []
  | a :: l =>
    match f a with
    | some b => (optMapList f l).map (fun bs => b :: bs)
    | none => none

def encodeValue : Value → JsonValue
  | .str s => .str s
  | .int n => .int n

def decodeValue : JsonValue → Option Value
  | .str s => some (.str s)
  | .int n => some (.int n)
  | .obj _ => none

def encodeRow (r : Row) : JsonValue :=
  .obj (r.map (fun kv => (kv.1, encodeValue kv.2)))

def decodeRow : JsonValue → Option Row
  | .obj l => optMapList (fun kv => (decodeValue kv.2).map (fun v => (kv.1, v))) l
  | _ => none

def encodeTable (tbl : Table) : JsonValue :=
  .obj (tbl.map (fun kv => (kv.1, encodeRow kv.2)))

def decodeTable : JsonValue → Option Table
  | .obj l => optMapList (fun kv => (decodeRow kv.2).map (fun v => (kv.1, v))) l
  | _ => none

def encodeTables (ts : Tables) : JsonValue :=
  .obj (ts.map (fun kv => (kv.1, encodeTable kv.2)))

def decodeTables : JsonValue → Option Tables
  | .obj l => optMapList (fun kv => (decodeTable kv.2).map (fun v => (kv.1, v))) l
  | _ => none

/-- `save_data()` (src/main.py lines 34-41): copy `dict(self.tables)` under
the lock and `json.dump` it; the successful save's file contents. -/
def save_data (s : ExpandableDatabase) : JsonValue :=
  encodeTables s.tables

/-- `load_data()` (src/main.py lines 26-32): if the snapshot file exists and
decodes to the snapshot shape, `self.tables.update(json.load(f))`; on a
missing file or a decode error the tables are left as they are. -/
def load_data (s : ExpandableDatabase) (file : Option JsonValue) : ExpandableDatabase :=
  match file with
  | none => s
  | some j =>
    match decodeTables j with
    | some m => { s with tables := dictUpdate s.tables m }
    | none => s

/-! ## Lemmas about the dict primitives -/

theorem dictSet_of_dictGet_eq {d : List (String × α)} {k : String} {v : α}
    (h : dictGet d k = some v) : dictSet d k v = d := by
  induction d with
  | nil => simp [dictGet] at h
  | cons kv rest ih =>
    obtain ⟨k', v'⟩ := kv
    by_cases hk : k' = k
    · subst hk
      simp [dictGet] at h
      simp [dictSet, h]
    · simp [dictGet, hk] at h
      simp [dictSet, hk, ih h]

theorem dictSet_of_dictGet_none {d : List (String × α)} {k : String} (v : α)
    (h : dictGet d k = none) : dictSet d k v = d ++ [(k, v)] := by
  induction d with
  | nil => rfl
  | cons kv rest ih =>
    obtain ⟨k', v'⟩ := kv
    by_cases hk : k' = k
    · subst hk; simp [dictGet] at h
    · simp [dictGet, hk] at h
      simp [dictSet, hk, ih h]

theorem dictGet_append (d₁ d₂ : List (String × α)) (k : String) :
    dictGet (d₁ ++ d₂) k =
      match dictGet d₁ k with
      | some v => some v
      | none => dictGet d₂ k := by
  induction d₁ with
  | nil => simp [dictGet]
  | cons kv rest ih =>
    obtain ⟨k', v'⟩ := kv
    by_cases hk : k' = k
    · simp [dictGet, hk]
    · simp [dictGet, hk, ih]

theorem dictGet_isSome_of_mem_fst {d : List (String × α)} {k : String}
    (h : k ∈ d.map Prod.fst) : (dictGet d k).isSome := by
  induction d with
  | nil => simp at h
  | cons kv rest ih =>
    obtain ⟨k', v'⟩ := kv
    rw [List.map_cons] at h
    rcases List.mem_cons.mp h with h | h
    · subst h
      simp [dictGet]
    · by_cases hk : k' = k
      · simp [dictGet, hk]
      · simp only [dictGet, hk, if_false]
        exact ih h

theorem dictUpdate_of_mem_eq {d : List (String × α)} :
    ∀ {m : List (String × α)}, (∀ kv ∈ m, dictGet d kv.1 = some kv.2) →
      dictUpdate d m = d := by
  intro m
  induction m with
  | nil => intro _; rfl
  | cons kv rest ih =>
    intro h
    have h1 : dictSet d kv.1 kv.2 = d := dictSet_of_dictGet_eq (h kv (by simp))
    have h2 : ∀ kv' ∈ rest, dictGet d kv'.1 = some kv'.2 := fun kv' hm => h kv' (by simp [hm])
    calc dictUpdate d (kv :: rest)
        = dictUpdate (dictSet d kv.1 kv.2) rest := rfl
      _ = dictUpdate d rest := by rw [h1]
      _ = d := ih h2

theorem dictUpdate_append_of_disjoint :
    ∀ {m d : List (String × α)}, (m.map Prod.fst).Nodup →
      (∀ k ∈ m.map Prod.fst, dictGet d k = none) → dictUpdate d m = d ++ m := by
  intro m
  induction m with
  | nil => intro d _ _; simp [dictUpdate]
  | cons kv rest ih =>
    intro d hnd hdis
    obtain ⟨k, v⟩ := kv
    rw [List.map_cons] at hnd
    obtain ⟨hk_not, hnd_rest⟩ := List.nodup_cons.mp hnd
    have hset : dictSet d k v = d ++ [(k, v)] :=
      dictSet_of_dictGet_none v (hdis k (by simp))
    have hdis' : ∀ k' ∈ rest.map Prod.fst, dictGet (d ++ [(k, v)]) k' = none := by
      intro k' hk'
      rw [dictGet_append]
      rw [hdis k' (by simp [hk'])]
      have hne : k ≠ k' := fun he => hk_not (by rw [he]; exact hk')
      simp [dictGet, hne]
    calc dictUpdate d ((k, v) :: rest)
        = dictUpdate (dictSet d k v) rest := rfl
      _ = dictUpdate (d ++ [(k, v)]) rest := by rw [hset]
      _ = (d ++ [(k, v)]) ++ rest := ih hnd_rest hdis'
      _ = d ++ ((k, v) :: rest) := by simp

/-! ## The combined (priority-partitioned) reorganization is a no-op

`self.shadow_tables[table_name].update(sorted_partition)` assigns to keys
that are all already present in the table, with the values they already
have; a Python dict assignment to a present key keeps the key's position,
so neither the order nor the contents of the table change. -/

theorem mem_partition_dictGet {t : Table} {chunk : List String} {kv : String × Row}
    (h : kv ∈ chunk.filterMap (fun k => (dictGet t k).map (fun v => (k, v)))) :
    dictGet t kv.1 = some kv.2 := by
  rw [List.mem_filterMap] at h
  obtain ⟨k, _, hk⟩ := h
  cases hg : dictGet t k with
  | none => rw [hg] at hk; simp at hk
  | some v =>
    rw [hg] at hk
    simp at hk
    rw [← hk]
    exact hg

theorem dictUpdate_sorted_partition (t : Table) (chunk : List String) :
    dictUpdate t
      (sortPartitionDesc (chunk.filterMap (fun k => (dictGet t k).map (fun v => (k, v))))) = t := by
  apply dictUpdate_of_mem_eq
  intro kv hkv
  apply @mem_partition_dictGet t chunk kv
  have hp : List.Perm
      (List.insertionSort qcGe (chunk.filterMap (fun k => (dictGet t k).map (fun v => (k, v)))))
      (chunk.filterMap (fun k => (dictGet t k).map (fun v => (k, v)))) :=
    List.perm_insertionSort qcGe _
  exact hp.mem_iff.mp hkv

theorem reorganizePartitions_eq_self (p : Nat) (tbl : Table) :
    reorganizePartitions p tbl = tbl := by
  show (chunkList p (tbl.map Prod.fst)).foldl
      (fun t chunk =>
        dictUpdate t (sortPartitionDesc (chunk.filterMap (fun k => (dictGet t k).map (fun v => (k, v))))))
      tbl = tbl
  generalize chunkList p (tbl.map Prod.fst) = chunks
  induction chunks with
  | nil => rfl
  | cons c cs ih =>
    rw [List.foldl_cons]
    show List.foldl _ (dictUpdate tbl (sortPartitionDesc (c.filterMap (fun k => (dictGet tbl k).map (fun v => (k, v)))))) cs = tbl
    rw [dictUpdate_sorted_partition tbl c]
    exact ih

theorem start_combined_foldl_eq_self (p : Nat) (ts : Tables) :
    ∀ l : List String, (∀ tn ∈ l, tn ∈ ts.map Prod.fst) →
      l.foldl (fun acc tn => dictSet acc tn (reorganizePartitions p ((dictGet acc tn).getD []))) ts
        = ts := by
  intro l
  induction l with
  | nil => intro _; rfl
  | cons tn rest ih =>
    intro h
    have hs : (dictGet ts tn).isSome := dictGet_isSome_of_mem_fst (h tn (by simp))
    obtain ⟨tbl, htbl⟩ := Option.isSome_iff_exists.mp hs
    have hstep : dictSet ts tn (reorganizePartitions p ((dictGet ts tn).getD [])) = ts := by
      rw [htbl]
      simp only [Option.getD_some, reorganizePartitions_eq_self]
      exact dictSet_of_dictGet_eq htbl
    rw [List.foldl_cons]
    show List.foldl _ (dictSet ts tn (reorganizePartitions p ((dictGet ts tn).getD []))) rest = ts
    rw [hstep]
    exact ih (fun tn' h' => h tn' (by simp [h']))

theorem start_combined_reorganization_eq_self (s : ExpandableDatabase) (p : Nat) :
    start_combined_reorganization s p = s := by
  have hmem : ∀ tn ∈ table_priorities s.tables, tn ∈ s.tables.map Prod.fst := by
    intro tn hm
    have hp : List.Perm (table_priorities s.tables) (s.tables.map Prod.fst) :=
      List.perm_insertionSort _ _
    exact hp.mem_iff.mp hm
  simp only [start_combined_reorganization]
  rw [start_combined_foldl_eq_self p s.tables (table_priorities s.tables) hmem]

/-! ## Stability and order of the full sort -/

theorem filter_orderedInsert_qc (c : Int) (a : String × Row) :
    ∀ l : Table,
      (List.orderedInsert qcGe a l).filter (fun e => decide (query_count e.2 = c)) =
        ((a :: l).filter (fun e => decide (query_count e.2 = c))) := by
  intro l
  induction l with
  | nil => rfl
  | cons b t ih =>
    by_cases h : qcGe a b
    · rw [List.orderedInsert, if_pos h]
    · rw [List.orderedInsert, if_neg h]
      by_cases ha : query_count a.2 = c
      · have hb : ¬ query_count b.2 = c := by
          intro hb
          exact h (le_of_eq (hb.trans ha.symm))
        simp [List.filter_cons, ha, hb, ih]
      · simp [List.filter_cons, ha, ih]

theorem filter_sortTableFull_qc (c : Int) :
    ∀ tbl : Table,
      (sortTableFull tbl).filter (fun e => decide (query_count e.2 = c)) =
        tbl.filter (fun e => decide (query_count e.2 = c)) := by
  intro tbl
  induction tbl with
  | nil => rfl
  | cons a t ih =>
    show (List.insertionSort qcGe (a :: t)).filter _ = _
    rw [List.insertionSort, filter_orderedInsert_qc]
    show (a :: List.insertionSort qcGe t).filter _ = _
    rw [List.filter_cons, List.filter_cons]
    rw [show (List.insertionSort qcGe t).filter (fun e => decide (query_count e.2 = c)) =
          t.filter (fun e => decide (query_count e.2 = c)) from ih]

theorem sortTableFull_perm (tbl : Table) : List.Perm (sortTableFull tbl) tbl :=
  List.perm_insertionSort qcGe tbl

theorem sortTableFull_sorted (tbl : Table) :
    List.Pairwise (fun a b => query_count b.2 ≤ query_count a.2) (sortTableFull tbl) :=
  List.sorted_insertionSort qcGe tbl

/-- `dictGet` through `start_reorganization`'s per-table map. -/
theorem dictGet_map_sortTableFull (ts : Tables) (k : String) :
    dictGet (ts.map (fun nt => (nt.1, sortTableFull nt.2))) k =
      (dictGet ts k).map sortTableFull := by
  induction ts with
  | nil => rfl
  | cons kv rest ih =>
    obtain ⟨k', tbl⟩ := kv
    by_cases hk : k' = k
    · simp [dictGet, hk]
    · simp [dictGet, hk, ih]

/-! ## JSON snapshot round-trip -/

theorem decodeValue_encodeValue (v : Value) : decodeValue (encodeValue v) = some v := by
  cases v <;> rfl

theorem optMapList_map_of_pointwise {f : β → Option α} {g : α → β}
    (h : ∀ a, f (g a) = some a) : ∀ l : List α, optMapList f (l.map g) = some l := by
  intro l
  induction l with
  | nil => rfl
  | cons a t ih =>
    rw [List.map_cons]
    show (match f (g a) with
      | some b => (optMapList f (t.map g)).map (fun bs => b :: bs)
      | none => none) = some (a :: t)
    rw [h a, ih]
    rfl

theorem decodeRow_encodeRow (r : Row) : decodeRow (encodeRow r) = some r := by
  show optMapList (fun kv => (decodeValue kv.2).map (fun v => (kv.1, v)))
      (r.map (fun kv => (kv.1, encodeValue kv.2))) = some r
  apply optMapList_map_of_pointwise
  intro kv
  simp [decodeValue_encodeValue]

theorem decodeTable_encodeTable (tbl : Table) : decodeTable (encodeTable tbl) = some tbl := by
  show optMapList (fun kv => (decodeRow kv.2).map (fun v => (kv.1, v)))
      (tbl.map (fun kv => (kv.1, encodeRow kv.2))) = some tbl
  apply optMapList_map_of_pointwise
  intro kv
  show (decodeRow (encodeRow kv.2)).map (fun v => (kv.1, v)) = some kv
  rw [decodeRow_encodeRow]
  rfl

theorem decodeTables_encodeTables (ts : Tables) : decodeTables (encodeTables ts) = some ts := by
  show optMapList (fun kv => (decodeTable kv.2).map (fun v => (kv.1, v)))
      (ts.map (fun kv => (kv.1, encodeTable kv.2))) = some ts
  apply optMapList_map_of_pointwise
  intro kv
  show (decodeTable (encodeTable kv.2)).map (fun v => (kv.1, v)) = some kv
  rw [decodeTable_encodeTable]
  rfl

/-! ## Concrete fixture states (built through the public operations) -/

def demoIncStore : ExpandableDatabase :=
  (add_row (add_table freshStore "users").2 "users" "u1" [("query_count", Value.int 0)]).2

def demoChunkStore : ExpandableDatabase :=
  let s := (add_table freshStore "t").2
  let s := (add_row s "t" "a" [("query_count", Value.int 1)]).2
  (add_row s "t" "b" [("query_count", Value.int 5)]).2

def demoUsersStore : ExpandableDatabase :=
  let s := (add_table freshStore "users").2
  let s := (add_row s "users" "u1" [("query_count", Value.int 5)]).2
  let s := (add_row s "users" "u2" [("query_count", Value.int 1)]).2
  (add_row s "users" "u3" [("query_count", Value.int 3)]).2

def demoPriorityTables : Tables :=
  [("logs", [("l1", [("query_count", Value.int 10)])]),
   ("users", [("u1", [("query_count", Value.int 100)])])]

def demoEmptyRowStore : ExpandableDatabase :=
  (add_row (add_table freshStore "t").2 "t" "k" []).2

def demoMetricsStore : ExpandableDatabase :=
  (add_row (add_table freshStore "users").2 "users" "u1"
    [("password", Value.str "pw"), ("query_count", Value.int 0)]).2

def demoRoundtripStore : ExpandableDatabase :=
  let s := (add_table freshStore "users").2
  let s := (add_row s "users" "u1" [("password", Value.str "abc123"), ("query_count", Value.int 7)]).2
  let s := (add_table s "logs").2
  let s := (add_row s "logs" "l1" [("query_count", Value.int 2)]).2
  (add_row s "logs" "l2" [("msg", Value.str "hello")]).2

def demoErrorStore : ExpandableDatabase :=
  (add_row (add_table freshStore "t").2 "t" "k" [("query_count", Value.int 0)]).2

/-! ## Claim theorems -/

/-- C1: the claim says n successful `track_increment` calls leave the row's
`query_count` equal to n.  The code instead adds 1 to
`pending_increments[table][key]` — a map that no code ever applies back to
the tables — so after two successful increments the row's `query_count` is
still `0` while the pending counter is `2`. -/
theorem claim_c1_increment_never_reaches_query_count :
    (track_increment demoIncStore "users" "u1").1.isError = false ∧
    (track_increment (track_increment demoIncStore "users" "u1").2 "users" "u1").1.isError
      = false ∧
    dictGet ((dictGet
        (track_increment (track_increment demoIncStore "users" "u1").2 "users" "u1").2.tables
        "users").getD []) "u1" = some [("query_count", Value.int 0)] ∧
    dictGet ((dictGet
        (track_increment (track_increment demoIncStore "users" "u1").2 "users" "u1").2.pending_increments
        "users").getD []) "u1" = some 2 := by
  refine ⟨rfl, rfl, rfl, rfl⟩

/-- C2: the claim says each contiguous chunk of ≤ p keys is internally
non-increasing in `query_count` after the priority-partitioned
reorganization.  In fact `start_combined_reorganization` never changes the
store at all: `dict.update` with keys that are already present (with their
current values) keeps every key's position, so the "sorted chunks" land
back in the original order.  On a table with rows `a` (count 1), `b`
(count 5) and `partition_size = 2`, the single chunk `["a", "b"]` is not
non-increasing after the reorganization. -/
theorem claim_c2_partitioned_reorganization_noop :
    (∀ (s : ExpandableDatabase) (p : Nat), start_combined_reorganization s p = s) ∧
    chunkList 2
      (((dictGet (start_combined_reorganization demoChunkStore 2).tables "t").getD []).map
        Prod.fst) = [["a", "b"]] ∧
    ¬ List.Pairwise qcGe
      ((dictGet (start_combined_reorganization demoChunkStore 2).tables "t").getD []) := by
  refine ⟨start_combined_reorganization_eq_self, by decide, by decide⟩

/-- C3: `start_reorganization` replaces each table (looked up by name) by
its full sort; the sort is a permutation of the original rows (so the set
of (key, fields) pairs is unchanged), its order is non-increasing in
`query_count` (absent field read as 0), it is stable (for every count `c`
the subsequence of rows with that count is unchanged), and on the concrete
scenario u1=5, u2=1, u3=3 the resulting iteration order is
["u1", "u3", "u2"]. -/
theorem claim_c3_full_sort_reorganization :
    (∀ (s : ExpandableDatabase) (name : String),
      dictGet (start_reorganization s).tables name = (dictGet s.tables name).map sortTableFull) ∧
    (∀ tbl : Table, List.Perm (sortTableFull tbl) tbl) ∧
    (∀ tbl : Table,
      List.Pairwise (fun a b => query_count b.2 ≤ query_count a.2) (sortTableFull tbl)) ∧
    (∀ (tbl : Table) (c : Int),
      (sortTableFull tbl).filter (fun e => decide (query_count e.2 = c)) =
        tbl.filter (fun e => decide (query_count e.2 = c))) ∧
    ((dictGet (start_reorganization demoUsersStore).tables "users").getD []).map Prod.fst
      = ["u1", "u3", "u2"] := by
  refine ⟨?_, sortTableFull_perm, sortTableFull_sorted,
    fun tbl c => filter_sortTableFull_qc c tbl, by decide⟩
  · intro s name
    exact dictGet_map_sortTableFull s.tables name

/-- C4: `table_priorities` is the exact order in which the
combined-reorganization loop processes the tables; it is a permutation of
the table names and is non-increasing in each table's total `query_count`;
on the concrete scenario (logs total 10, users total 100) users comes
first. -/
theorem claim_c4_tables_processed_by_descending_total :
    (∀ ts : Tables, List.Perm (table_priorities ts) (ts.map Prod.fst)) ∧
    (∀ ts : Tables, List.Pairwise
      (fun a b => table_total ((dictGet ts b).getD []) ≤ table_total ((dictGet ts a).getD []))
      (table_priorities ts)) ∧
    table_priorities demoPriorityTables = ["users", "logs"] := by
  refine ⟨fun ts => List.perm_insertionSort _ _, ?_, by decide⟩
  intro ts
  haveI : IsTotal String
      (fun a b => table_total ((dictGet ts b).getD []) ≤ table_total ((dictGet ts a).getD [])) :=
    ⟨fun a b => le_total _ _⟩
  haveI : IsTrans String
      (fun a b => table_total ((dictGet ts b).getD []) ≤ table_total ((dictGet ts a).getD [])) :=
    ⟨fun _ _ _ h1 h2 => le_trans h2 h1⟩
  exact List.sorted_insertionSort _ _

/-- The nested lookup performed by `get_row`:
`self.tables.get(table_name, {}).get(row_id)`. -/
def storedRow (s : ExpandableDatabase) (t k : String) : Option Row :=
  dictGet ((dictGet s.tables t).getD []) k

/-- C5 (counterexample): the claim says `get_row` returns the stored row
whenever the table exists and the key is present.  `demoEmptyRowStore` has
table "t" with key "k" mapped to the empty field map (inserted through
`add_row`, which accepts it); `return row if row else error` evaluates the
empty dict as falsy, so `get_row` returns the error value instead of the
stored row. -/
theorem claim_c5_counterexample :
    storedRow demoEmptyRowStore "t" "k" = some [] ∧
    (get_row demoEmptyRowStore "t" "k").1 = DBResult.error "Row not found." := by
  refine ⟨rfl, rfl⟩

/-- C5 (amended): `get_row` returns the stored row iff the table exists,
the key is present and the stored row is a non-empty field map; it fails
with the row-not-found error value exactly when the lookup misses (table or
key absent) or the stored row is empty (Python truthiness).  The state is
untouched either way. -/
theorem claim_c5_get_row_semantics (s : ExpandableDatabase) (t k : String) :
    (∀ r : Row, (get_row s t k).1 = DBResult.ok r ↔ (storedRow s t k = some r ∧ r ≠ [])) ∧
    ((get_row s t k).1.isError = true ↔
      (storedRow s t k = none ∨ storedRow s t k = some [])) ∧
    (get_row s t k).2 = s := by
  unfold get_row storedRow
  cases hg : dictGet ((dictGet s.tables t).getD []) k with
  | none => simp [DBResult.isError]
  | some row =>
    cases row with
    | nil => simp [DBResult.isError]
    | cons f fs =>
      dsimp only
      rw [if_neg (by simp)]
      refine ⟨?_, ?_, rfl⟩
      · intro r
        constructor
        · intro h
          injection h with h
          exact ⟨by rw [h], by rw [← h]; exact List.cons_ne_nil f fs⟩
        · rintro ⟨h1, _⟩
          injection h1 with h1
          rw [h1]
      · constructor
        · intro h
          simp [DBResult.isError] at h
        · rintro (h | h) <;> simp at h

/-- C6 (counterexample): the claim says every `get_row` call grows the
request-latency sample sequence by one.  On `demoMetricsStore` (where the
lookup succeeds) `get_row` leaves the sample count unchanged: the code
never calls `record_request_time` from `get_row`. -/
theorem claim_c6_counterexample :
    (get_row demoMetricsStore "users" "u1").2.request_times
      ≠ demoMetricsStore.request_times + 1 := by
  decide

/-- C6 (amended): `get_row` records no request-latency sample on either
path; the recording happens in `track_increment`, which appends exactly one
sample per call on both the success and the error path. -/
theorem claim_c6_latency_recording (s : ExpandableDatabase) (t k : String) :
    (get_row s t k).2.request_times = s.request_times ∧
    (track_increment s t k).2.request_times = s.request_times + 1 := by
  constructor
  · unfold get_row
    cases dictGet ((dictGet s.tables t).getD []) k with
    | none => rfl
    | some row =>
      dsimp only
      split <;> rfl
  · unfold track_increment
    cases dictGet s.tables t with
    | none => rfl
    | some tbl =>
      dsimp only
      split <;> rfl

/-- C7: `add_table` returns the `TableExists` error value (modelled by the
"Table already exists." message) exactly when the name is already a table,
and otherwise succeeds and appends an empty table at the end of the table
map; `add_row` returns the `TableNotFound` error value ("Table does not
exist.") exactly when the table is absent, the `RowExists` error value
("Row ID already exists.") exactly when the table exists but the key is
already present, and otherwise succeeds and appends the row at the end of
that table's insertion order (the table itself keeping its position).  The
theorem pins the exact result value of each case, so the error kinds are
distinguished.  All failures are the returned error values of the total
functions modelling the operations; nothing is raised. -/
theorem claim_c7_add_table_add_row (s : ExpandableDatabase) (name t k : String) (d : Row) :
    ((add_table s name).1 =
      if (dictGet s.tables name).isSome then DBResult.error "Table already exists."
      else DBResult.ok "Table added successfully.") ∧
    ((add_table s name).2.tables =
      if (dictGet s.tables name).isSome then s.tables else s.tables ++ [(name, [])]) ∧
    ((add_row s t k d).1 =
      (match dictGet s.tables t with
       | none => DBResult.error "Table does not exist."
       | some tbl =>
         if (dictGet tbl k).isSome then DBResult.error "Row ID already exists."
         else DBResult.ok "Row added successfully.")) ∧
    ((add_row s t k d).2.tables =
      (match dictGet s.tables t with
       | none => s.tables
       | some tbl =>
         if (dictGet tbl k).isSome then s.tables
         else dictSet s.tables t (tbl ++ [(k, d)]))) := by
  refine ⟨?_, ?_, ?_, ?_⟩
  · unfold add_table
    by_cases h : (dictGet s.tables name).isSome
    · rw [if_pos h, if_pos h]
    · rw [if_neg h, if_neg h]
  · unfold add_table
    by_cases h : (dictGet s.tables name).isSome
    · rw [if_pos h, if_pos h]
    · rw [if_neg h, if_neg h]
      have hn : dictGet s.tables name = none := Option.not_isSome_iff_eq_none.mp h
      exact dictSet_of_dictGet_none [] hn
  · unfold add_row
    cases hg : dictGet s.tables t with
    | none => rfl
    | some tbl =>
      dsimp only
      by_cases hk : (dictGet tbl k).isSome
      · rw [if_pos hk, if_pos hk]
      · rw [if_neg hk, if_neg hk]
  · unfold add_row
    cases hg : dictGet s.tables t with
    | none => rfl
    | some tbl =>
      dsimp only
      by_cases hk : (dictGet tbl k).isSome
      · rw [if_pos hk, if_pos hk]
      · rw [if_neg hk, if_neg hk]
        have hn : dictGet tbl k = none := Option.not_isSome_iff_eq_none.mp hk
        rw [dictSet_of_dictGet_none d hn]

/-- C8: a successful save of any store state followed by a load into a
fresh empty store reproduces the table map exactly (same tables, same rows,
same field values, and in fact the same order).  The snapshot decodes back
to precisely the saved table map, and updating the fresh store's empty
table dict with it reproduces the map, given the (dict-guaranteed)
uniqueness of table names. -/
theorem claim_c8_save_load_roundtrip (s : ExpandableDatabase)
    (h : (s.tables.map Prod.fst).Nodup) :
    (load_data freshStore (some (save_data s))).tables = s.tables := by
  show (match decodeTables (encodeTables s.tables) with
    | some m => { freshStore with tables := dictUpdate freshStore.tables m }
    | none => freshStore).tables = s.tables
  rw [decodeTables_encodeTables]
  show dictUpdate [] s.tables = s.tables
  rw [dictUpdate_append_of_disjoint (d := []) h (fun _ _ => rfl)]
  rfl

/-- C8 (witness): the round trip evaluated on a concrete two-table store. -/
theorem claim_c8_roundtrip_witness :
    (demoRoundtripStore.tables.map Prod.fst).Nodup ∧
    (load_data freshStore (some (save_data demoRoundtripStore))).tables
      = demoRoundtripStore.tables :=
  ⟨by decide, claim_c8_save_load_roundtrip demoRoundtripStore (by decide)⟩

/-- C10: whenever one of the five public operations returns an error value,
the table map is left completely unchanged — no table created, no row
inserted or modified, no `query_count` changed.  (`get_row` and
`get_password` never change the state at all.) -/
theorem claim_c10_error_paths_leave_tables_unchanged (s : ExpandableDatabase)
    (name t k t' k' u : String) (d : Row) :
    ((add_table s name).1.isError = true → (add_table s name).2.tables = s.tables) ∧
    ((add_row s t k d).1.isError = true → (add_row s t k d).2.tables = s.tables) ∧
    ((get_row s t k).2 = s) ∧
    ((track_increment s t' k').1.isError = true →
      (track_increment s t' k').2.tables = s.tables) ∧
    ((get_password s t u).2 = s) := by
  refine ⟨?_, ?_, ?_, ?_, ?_⟩
  · unfold add_table
    by_cases h : (dictGet s.tables name).isSome
    · rw [if_pos h]
      intro _
      rfl
    · rw [if_neg h]
      intro hc
      simp [DBResult.isError] at hc
  · unfold add_row
    cases dictGet s.tables t with
    | none => intro _; rfl
    | some tbl =>
      dsimp only
      by_cases hk : (dictGet tbl k).isSome
      · rw [if_pos hk]
        intro _
        rfl
      · rw [if_neg hk]
        intro hc
        simp [DBResult.isError] at hc
  · unfold get_row
    cases dictGet ((dictGet s.tables t).getD []) k with
    | none => rfl
    | some row =>
      dsimp only
      split <;> rfl
  · unfold track_increment
    cases dictGet s.tables t' with
    | none => intro _; rfl
    | some tbl =>
      dsimp only
      by_cases hk : (dictGet tbl k').isSome
      · rw [if_pos hk]
        intro hc
        simp [DBResult.isError] at hc
      · rw [if_neg hk]
        intro _
        rfl
  · unfold get_password
    cases dictGet ((dictGet s.tables t).getD []) u with
    | none => rfl
    | some row =>
      dsimp only
      by_cases he : row.isEmpty
      · rw [if_pos he]
      · rw [if_neg he]
        cases dictGet row "password" with
        | none => rfl
        | some pw => rfl

/-- C10 (witness): the three implications evaluated at concrete erroring
inputs — duplicate table name, row into an absent table, increment of an
absent row. -/
theorem claim_c10_witness :
    (add_table demoErrorStore "t").2.tables = demoErrorStore.tables ∧
    (add_row demoErrorStore "x" "k" []).2.tables = demoErrorStore.tables ∧
    (track_increment demoErrorStore "t" "missing").2.tables = demoErrorStore.tables := by
  have h := claim_c10_error_paths_leave_tables_unchanged demoErrorStore "t" "x" "k" "t"
    "missing" "u" []
  exact ⟨h.1 (by decide), h.2.1 (by decide), h.2.2.2.1 (by decide)⟩
